import Mathlib

/-!
Verification of the EuroDreams chaotic seed generator (src/EuroDreams.py).

Modelling conventions (shallow embedding):

* Machine floats are modelled as exact rationals (ℚ).  The floating-point
  trigonometric functions np.sin and np.cos are external library code whose
  exact values no claim depends on; they are abstracted as explicit function
  parameters (sin cos : ℚ → ℚ) that are passed through the pipeline.
* scipy.integrate.odeint is external library code.  It is modelled, as the
  spec allows (any deterministic fixed-step solver), by an explicit fixed-step
  Euler integrator matching odeint's interface contract: one output row per
  requested time, the first row equal to the initial state.
* np.arange(start, stop, step) is modelled exactly over ℚ: ceil((stop-start)/step)
  points start + i*step.  numpy raises ZeroDivisionError for step = 0; this is
  modelled at the call site in simulate_double_pendulum.
* Python exceptions are modelled by Except PyErr; code that cannot raise in the
  modelled fragment returns plain values.
* CPython's hash() on the weather token is process-stable but otherwise opaque;
  it is abstracted as a parameter pyhash : Token → ℤ over an opaque token type.
* CPython's random module (Mersenne Twister) is modelled over an abstract
  seedable generator: a state type G, a seeding function seedFn : ℤ → G for
  random.seed, and a bundled _randbelow operation (BitGen) whose documented
  contract is that _randbelow(n) returns a value < n for n > 0.  random.sample
  for sample size 6 from a 40-element population takes CPython's pool branch,
  transcribed below (sampleGo); random.randint(a, b) is a + _randbelow(b+1-a);
  Python's sorted is List.mergeSort.  The global Random instance is made
  explicit: generate_eurodreams_numbers takes the incoming global generator
  state and returns the updated one.
-/

namespace EuroDreams

/-- Python exceptions that can actually be raised in the modelled fragment:
numpy's ZeroDivisionError from arange with step 0, and IndexError from
indexing an empty array. -/
inductive PyErr where
  | zeroDivisionError
  | indexError
deriving DecidableEq

/-- Gravitational constant, line 8: g = 9.81. -/
def g : ℚ := 981 / 100

/-- The float64 value of np.pi as an exact rational (884279719003555 / 2^48). -/
def np_pi : ℚ := 884279719003555 / 281474976710656

/-- The 4-dimensional integration state [theta1, z1, theta2, z2] of lines 20/26. -/
structure PState where
  theta1 : ℚ
  z1 : ℚ
  theta2 : ℚ
  z2 : ℚ
deriving DecidableEq

/-- np.arange(start, stop, step): ceil((stop - start) / step) sample points
start + i * step, modelled exactly over ℚ. -/
def arange (start stop step : ℚ) : List ℚ :=
  (List.range (⌈(stop - start) / step⌉).toNat).map (fun i : ℕ => start + (i : ℚ) * step)

/-- The derivative function deriv of lines 25-37.  The returned record holds the
componentwise derivatives (theta1_dot, z1_dot, theta2_dot, z2_dot) in the four
state slots, mirroring the returned Python tuple.  The time argument is unused,
as in the source. -/
def deriv (sin cos : ℚ → ℚ) (L1 L2 m1 m2 : ℚ) (y : PState) (_t : ℚ) : PState :=
  let c := cos (y.theta1 - y.theta2)
  let s := sin (y.theta1 - y.theta2)
  { theta1 := y.z1
    z1 := (m2 * g * sin y.theta2 * c - m2 * s * (L1 * y.z1 ^ 2 * c + L2 * y.z2 ^ 2) -
           (m1 + m2) * g * sin y.theta1) / L1 / (m1 + m2 * s ^ 2)
    theta2 := y.z2
    z2 := ((m1 + m2) * (L1 * y.z1 ^ 2 * s - g * sin y.theta2 + g * sin y.theta1 * c) +
           m2 * L2 * y.z2 ^ 2 * s * c) / L2 / (m1 + m2 * s ^ 2) }

/-- y + h * d, componentwise: one explicit Euler update. -/
def PState.axpy (h : ℚ) (y d : PState) : PState :=
  ⟨y.theta1 + h * d.theta1, y.z1 + h * d.z1, y.theta2 + h * d.theta2, y.z2 + h * d.z2⟩

/-- Steps of the fixed-step solver after the initial row: given the state y at
time t, produce one state per remaining requested time. -/
def odeintGo (f : PState → ℚ → PState) : PState → ℚ → List ℚ → List PState
  | _, _, [] => []
  | y, t, t1 :: ts =>
    let y1 := PState.axpy (t1 - t) y (f y t)
    y1 :: odeintGo f y1 t1 ts

/-- Model of scipy.integrate.odeint (line 40): a deterministic fixed-step solver
returning one state row per requested time, the first row being the initial
state, per odeint's interface contract. -/
def odeint (f : PState → ℚ → PState) (y0 : PState) (t : List ℚ) : List PState :=
  match t with
  | [] => []
  | t0 :: ts => y0 :: odeintGo f y0 t0 ts

/-- simulate_double_pendulum (lines 11-42): build the time grid
t = np.arange(0, tmax, dt), integrate, and return the two angle columns
sol[:, 0] and sol[:, 2].  numpy's arange raises ZeroDivisionError when the
step is 0; no other exception can be raised here (in particular there is no
parameter validation: float division by zero inside deriv does not raise). -/
def simulate_double_pendulum (sin cos : ℚ → ℚ) (L1 L2 m1 m2 tmax dt : ℚ) (y0 : PState) :
    Except PyErr (List ℚ × List ℚ) :=
  if dt = 0 then .error .zeroDivisionError
  else
    let t := arange 0 tmax dt
    let sol := odeint (fun y s => deriv sin cos L1 L2 m1 m2 y s) y0 t
    .ok (sol.map PState.theta1, sol.map PState.theta2)

/-- The default initial condition of line 45: y0 = [np.pi - 0.1, 0, np.pi - 0.2, 0]. -/
def y0_default : PState := ⟨np_pi - 1 / 10, 0, np_pi - 2 / 10, 0⟩

/-- get_chaotic_value_from_pendulum (lines 45-54), with its parameters made
explicit: simulate, then take theta2[-1], which raises IndexError when the
trajectory is empty. -/
def get_chaotic_value_from_pendulum (sin cos : ℚ → ℚ) (L1 L2 m1 m2 tmax dt : ℚ)
    (y0 : PState) : Except PyErr ℚ :=
  match simulate_double_pendulum sin cos L1 L2 m1 m2 tmax dt y0 with
  | .error e => .error e
  | .ok (_, theta2) =>
    match theta2.getLast? with
    | none => .error .indexError
    | some v => .ok v

/-- get_chaotic_value_from_pendulum() called with all default arguments
(line 45): L1 = L2 = 1.0, m1 = m2 = 1.0, tmax = 10, dt = 0.01, y0 = y0_default. -/
def get_chaotic_value_default (sin cos : ℚ → ℚ) : Except PyErr ℚ :=
  get_chaotic_value_from_pendulum sin cos 1 1 1 1 10 (1 / 100) y0_default

/-- Python's int() conversion on a rational: truncation toward zero. -/
def pyInt (q : ℚ) : ℤ :=
  if 0 ≤ q then ⌊q⌋ else ⌈q⌉

/-- The single chaotic value that every default-parameter extractor call
returns (well defined by get_chaotic_value_default_eq below). -/
def chaotic_default_val (sin cos : ℚ → ℚ) : ℚ :=
  (get_chaotic_value_default sin cos).toOption.getD 0

/-- create_combined_seed (lines 68-77):
hash(weather_seed) + current_time_seed + int(abs(chaotic_value) * 1e6),
where the chaotic value comes from get_chaotic_value_from_pendulum() with all
default arguments. -/
def create_combined_seed {Token : Type} (pyhash : Token → ℤ) (sin cos : ℚ → ℚ)
    (current_time_seed : ℤ) (weather_seed : Token) : Except PyErr ℤ :=
  match get_chaotic_value_default sin cos with
  | .error e => .error e
  | .ok chaotic_value =>
    .ok (pyhash weather_seed + current_time_seed + pyInt (|chaotic_value| * 1000000))

/-- An abstract seedable pseudo-random generator with CPython's _randbelow
primitive: rb gst n draws an integer below n (its documented contract, field
rb_lt) and advances the generator state. -/
structure BitGen (G : Type) where
  rb : G → ℕ → ℕ × G
  rb_lt : ∀ (gst : G) (n : ℕ), 0 < n → (rb gst n).1 < n

/-- The trivial conforming generator: always draws 0. -/
def zeroGen : BitGen Unit :=
  ⟨fun _ _ => (0, ()), fun _ n h => h⟩

/-- Python's range(a, b) as a list of integers. -/
def pyRange (a b : ℤ) : List ℤ :=
  (List.range (b - a).toNat).map (fun i : ℕ => a + (i : ℤ))

/-- CPython's random.sample selection loop (pool branch, taken for
sample(range(1, 41), 6)): k times, draw j = _randbelow(n - i), select pool[j],
then move the last active element into the vacancy.  CPython keeps the full
array and shrinks the active size n - i; indices at or beyond the active size
are never read again, so the pool is modelled as the active region only:
moving the last element into slot j and dropping the last slot. -/
def sampleGo {G : Type} (R : BitGen G) : ℕ → List ℤ → G → List ℤ × G
  | 0, _, gst => ([], gst)
  | k + 1, pool, gst =>
    let jg := R.rb gst pool.length
    let x := pool.getD jg.1 0
    let pool1 := (pool.set jg.1 (pool.getD (pool.length - 1) 0)).dropLast
    let rest := sampleGo R k pool1 jg.2
    (x :: rest.1, rest.2)

/-- random.sample(population, k) on the seeded generator state. -/
def sample {G : Type} (R : BitGen G) (population : List ℤ) (k : ℕ) (gst : G) :
    List ℤ × G :=
  sampleGo R k population gst

/-- random.randint(a, b) = randrange(a, b + 1) = a + _randbelow(b + 1 - a). -/
def randint {G : Type} (R : BitGen G) (a b : ℤ) (gst : G) : ℤ × G :=
  let jg := R.rb gst (b + 1 - a).toNat
  (a + (jg.1 : ℤ), jg.2)

/-- generate_eurodreams_numbers (lines 57-65) with the module-global Random
instance made explicit: random.seed(seed) replaces the whole generator state
with seedFn seed (the incoming state gIn is discarded), then
sorted(random.sample(range(1, 41), 6)) and random.randint(1, 5) are drawn in
that order, each advancing the generator state. -/
def generate_eurodreams_numbers {G : Type} (R : BitGen G) (seedFn : ℤ → G)
    (seed : ℤ) (gIn : G) : (List ℤ × List ℤ) × G :=
  let g0 := seedFn seed
  let s1 := sample R (pyRange 1 41) 6 g0
  let main_numbers := s1.1.mergeSort
  let b1 := randint R 1 5 s1.2
  ((main_numbers, [b1.1]), b1.2)

/-- A concrete trigonometric model used to instantiate witness statements. -/
def zfun : ℚ → ℚ := fun _ => 0

/-- A concrete token hash used to instantiate witness statements. -/
def hash0 : Unit → ℤ := fun _ => 0

/-- The 47 trial-draw combined seeds of the __main__ loop (lines 184-197):
trial i uses time seed current_time_seed_base + i. -/
def trial_draw_seeds {Token : Type} (pyhash : Token → ℤ) (sin cos : ℚ → ℚ)
    (current_time_seed_base : ℤ) (weather_seed : Token) : List (Except PyErr ℤ) :=
  (List.range 47).map
    (fun i : ℕ => create_combined_seed pyhash sin cos (current_time_seed_base + (i : ℤ)) weather_seed)

/-- The official-draw combined seed (lines 204-206): time seed base + 47. -/
def official_draw_seed {Token : Type} (pyhash : Token → ℤ) (sin cos : ℚ → ℚ)
    (current_time_seed_base : ℤ) (weather_seed : Token) : Except PyErr ℤ :=
  create_combined_seed pyhash sin cos (current_time_seed_base + 47) weather_seed

/-- All 48 combined seeds of one program run: 47 trial draws then the official
draw. -/
def all_draw_seeds {Token : Type} (pyhash : Token → ℤ) (sin cos : ℚ → ℚ)
    (current_time_seed_base : ℤ) (weather_seed : Token) : List (Except PyErr ℤ) :=
  trial_draw_seeds pyhash sin cos current_time_seed_base weather_seed ++
    [official_draw_seed pyhash sin cos current_time_seed_base weather_seed]

end EuroDreams

namespace EuroDreams

/-! Basic structural lemmas about the integrator. -/

theorem odeintGo_length (f : PState → ℚ → PState) :
    ∀ (ts : List ℚ) (y : PState) (t : ℚ), (odeintGo f y t ts).length = ts.length := by
  intro ts
  induction ts with
  | nil => intro y t; rfl
  | cons t1 ts ih =>
      intro y t
      simp [odeintGo, ih]

theorem odeint_length (f : PState → ℚ → PState) (y0 : PState) (t : List ℚ) :
    (odeint f y0 t).length = t.length := by
  cases t with
  | nil => rfl
  | cons t0 ts => simp [odeint, odeintGo_length]

theorem arange_length (start stop step : ℚ) :
    (arange start stop step).length = (⌈(stop - start) / step⌉).toNat := by
  simp only [arange, List.length_map, List.length_range]

theorem arange_length_pos (stop step : ℚ) (hstop : 0 < stop) (hstep : 0 < step) :
    0 < (arange 0 stop step).length := by
  rw [arange_length]
  have hq : 0 < (stop - 0) / step := by
    rw [sub_zero]
    exact div_pos hstop hstep
  have : 0 < ⌈(stop - 0) / step⌉ := Int.ceil_pos.mpr hq
  omega

/-- With a nonzero step, simulate_double_pendulum succeeds and both returned
angle sequences have one entry per point of the time grid. -/
theorem simulate_double_pendulum_ok (sin cos : ℚ → ℚ) (L1 L2 m1 m2 tmax dt : ℚ)
    (y0 : PState) (hdt : dt ≠ 0) :
    ∃ th1 th2 : List ℚ,
      simulate_double_pendulum sin cos L1 L2 m1 m2 tmax dt y0 = .ok (th1, th2) ∧
      th1.length = (arange 0 tmax dt).length ∧
      th2.length = (arange 0 tmax dt).length := by
  have h : simulate_double_pendulum sin cos L1 L2 m1 m2 tmax dt y0 =
      .ok ((odeint (fun y s => deriv sin cos L1 L2 m1 m2 y s) y0 (arange 0 tmax dt)).map
             PState.theta1,
           (odeint (fun y s => deriv sin cos L1 L2 m1 m2 y s) y0 (arange 0 tmax dt)).map
             PState.theta2) := by
    simp [simulate_double_pendulum, hdt]
  exact ⟨_, _, h, by simp [odeint_length], by simp [odeint_length]⟩

/-- With a positive duration and step, the chaos extractor succeeds: the
trajectory is nonempty, so theta2[-1] is defined. -/
theorem get_chaotic_value_ok (sin cos : ℚ → ℚ) (L1 L2 m1 m2 tmax dt : ℚ) (y0 : PState)
    (htmax : 0 < tmax) (hdt : 0 < dt) :
    ∃ v : ℚ, get_chaotic_value_from_pendulum sin cos L1 L2 m1 m2 tmax dt y0 = .ok v := by
  obtain ⟨th1, th2, hsim, _, h2⟩ :=
    simulate_double_pendulum_ok sin cos L1 L2 m1 m2 tmax dt y0 (ne_of_gt hdt)
  have hlen : 0 < th2.length := by
    rw [h2]; exact arange_length_pos tmax dt htmax hdt
  obtain ⟨v, hv⟩ := Option.isSome_iff_exists.mp
    (List.getLast?_isSome.mpr (List.ne_nil_of_length_pos hlen))
  exact ⟨v, by simp [get_chaotic_value_from_pendulum, hsim, hv]⟩

theorem get_chaotic_value_default_eq (sin cos : ℚ → ℚ) :
    get_chaotic_value_default sin cos = .ok (chaotic_default_val sin cos) := by
  obtain ⟨v, hv⟩ := get_chaotic_value_ok sin cos 1 1 1 1 10 (1 / 100) y0_default
    (by norm_num) (by norm_num)
  have h : get_chaotic_value_default sin cos = .ok v := hv
  rw [h, chaotic_default_val, h]
  rfl

theorem pyInt_eq_floor (q : ℚ) (hq : 0 ≤ q) : pyInt q = ⌊q⌋ :=
  if_pos hq

/-- Unfolding equation for the seed combiner: it always succeeds and returns
hash + time + int(abs(chaotic) * 1e6). -/
theorem create_combined_seed_eq {Token : Type} (pyhash : Token → ℤ) (sin cos : ℚ → ℚ)
    (t : ℤ) (w : Token) :
    create_combined_seed pyhash sin cos t w =
      .ok (pyhash w + t + pyInt (|chaotic_default_val sin cos| * 1000000)) := by
  rw [create_combined_seed, get_chaotic_value_default_eq]

/-- The arange grid over [0, tmax) with positive step consists exactly of the
natural multiples of the step that lie strictly below tmax. -/
theorem arange_mem_iff (tmax dt : ℚ) (hdt : 0 < dt) (x : ℚ) :
    x ∈ arange 0 tmax dt ↔ ∃ k : ℕ, x = (k : ℚ) * dt ∧ x < tmax := by
  simp only [arange, List.mem_map, List.mem_range]
  constructor
  · rintro ⟨i, hi, rfl⟩
    refine ⟨i, by ring, ?_⟩
    have h1 : (i : ℤ) < ⌈(tmax - 0) / dt⌉ := Int.lt_toNat.mp hi
    have h2 : (i : ℚ) < (tmax - 0) / dt := by exact_mod_cast Int.lt_ceil.mp h1
    rw [sub_zero] at h2
    have h3 : (i : ℚ) * dt < tmax := (lt_div_iff₀ hdt).mp h2
    linarith
  · rintro ⟨k, rfl, hk⟩
    refine ⟨k, ?_, by ring⟩
    have h2 : (k : ℚ) < tmax / dt := (lt_div_iff₀ hdt).mpr hk
    have h1 : (k : ℤ) < ⌈(tmax - 0) / dt⌉ :=
      Int.lt_ceil.mpr (by rw [sub_zero]; exact_mod_cast h2)
    exact Int.lt_toNat.mpr h1

theorem arange_zero_mem (stop step : ℚ) (hstop : 0 < stop) (hstep : 0 < step) :
    (0 : ℚ) ∈ arange 0 stop step := by
  have hlen := arange_length_pos stop step hstop hstep
  rw [arange_length] at hlen
  simp only [arange, List.mem_map, List.mem_range]
  exact ⟨0, hlen, by norm_num⟩

/-! Lemmas about the sampler. -/

theorem pyRange_mem (a b x : ℤ) : x ∈ pyRange a b ↔ a ≤ x ∧ x < b := by
  simp only [pyRange, List.mem_map, List.mem_range]
  constructor
  · rintro ⟨i, hi, rfl⟩
    omega
  · rintro ⟨h1, h2⟩
    exact ⟨(x - a).toNat, by omega, by omega⟩

theorem pyRange_nodup (a b : ℤ) : (pyRange a b).Nodup := by
  refine List.Nodup.map ?_ (List.nodup_range _)
  intro i j h
  simp only at h
  omega

/-- One pool update of the sample loop: every entry of the updated active
region comes from the old one, the selected entry pool[j] is gone, no
duplicates appear, and the region shrinks by one. -/
theorem pool_update_getElem_eq (pool : List ℤ) (j : ℕ) (hj : j < pool.length)
    (i : ℕ) (hi : i < ((pool.set j (pool.getD (pool.length - 1) 0)).dropLast).length)
    (hji : j = i) :
    ((pool.set j (pool.getD (pool.length - 1) 0)).dropLast)[i] =
      pool[pool.length - 1] := by
  rw [List.getElem_dropLast, List.getElem_set]
  split
  · exact List.getD_eq_getElem pool 0 (by omega)
  · exact absurd hji (by assumption)

theorem pool_update_getElem_ne (pool : List ℤ) (j : ℕ) (hj : j < pool.length)
    (i : ℕ) (hi : i < ((pool.set j (pool.getD (pool.length - 1) 0)).dropLast).length)
    (hi2 : i < pool.length) (hji : j ≠ i) :
    ((pool.set j (pool.getD (pool.length - 1) 0)).dropLast)[i] = pool[i] := by
  rw [List.getElem_dropLast, List.getElem_set]
  split
  · exact absurd (by assumption) hji
  · rfl

theorem pool_update_spec (pool : List ℤ) (j : ℕ) (hj : j < pool.length)
    (hnd : pool.Nodup) :
    ((pool.set j (pool.getD (pool.length - 1) 0)).dropLast).length = pool.length - 1 ∧
    (∀ y ∈ (pool.set j (pool.getD (pool.length - 1) 0)).dropLast, y ∈ pool) ∧
    pool.getD j 0 ∉ (pool.set j (pool.getD (pool.length - 1) 0)).dropLast ∧
    ((pool.set j (pool.getD (pool.length - 1) 0)).dropLast).Nodup := by
  have hlen : ((pool.set j (pool.getD (pool.length - 1) 0)).dropLast).length =
      pool.length - 1 := by
    simp [List.length_dropLast, List.length_set]
  refine ⟨hlen, ?_, ?_, ?_⟩
  · intro y hy
    obtain ⟨i, hi, rfl⟩ := List.mem_iff_getElem.mp hy
    rcases eq_or_ne j i with hji | hji
    · rw [pool_update_getElem_eq pool j hj i hi hji]
      exact List.getElem_mem _
    · rw [pool_update_getElem_ne pool j hj i hi (by omega) hji]
      exact List.getElem_mem _
  · intro hmem
    obtain ⟨i, hi, hieq⟩ := List.mem_iff_getElem.mp hmem
    have hi1 : i < pool.length - 1 := by omega
    rcases eq_or_ne j i with hji | hji
    · rw [pool_update_getElem_eq pool j hj i hi hji,
        List.getD_eq_getElem pool 0 hj] at hieq
      have := (List.Nodup.getElem_inj_iff hnd).mp hieq
      omega
    · rw [pool_update_getElem_ne pool j hj i hi (by omega) hji,
        List.getD_eq_getElem pool 0 hj] at hieq
      have := (List.Nodup.getElem_inj_iff hnd).mp hieq
      omega
  · rw [List.nodup_iff_injective_getElem]
    intro a b hab
    have ha1 : a.1 < pool.length - 1 := by have h2 := a.2; omega
    have hb1 : b.1 < pool.length - 1 := by have h2 := b.2; omega
    simp only at hab
    apply Fin.ext
    rcases eq_or_ne j a.1 with hja | hja <;> rcases eq_or_ne j b.1 with hjb | hjb
    · omega
    · rw [pool_update_getElem_eq pool j hj a.1 a.2 hja,
        pool_update_getElem_ne pool j hj b.1 b.2 (by omega) hjb] at hab
      have := (List.Nodup.getElem_inj_iff hnd).mp hab
      omega
    · rw [pool_update_getElem_ne pool j hj a.1 a.2 (by omega) hja,
        pool_update_getElem_eq pool j hj b.1 b.2 hjb] at hab
      have := (List.Nodup.getElem_inj_iff hnd).mp hab
      omega
    · rw [pool_update_getElem_ne pool j hj a.1 a.2 (by omega) hja,
        pool_update_getElem_ne pool j hj b.1 b.2 (by omega) hjb] at hab
      have := (List.Nodup.getElem_inj_iff hnd).mp hab
      omega

/-- The extractor returns exactly the last theta2 sample of a successful
simulation. -/
theorem get_chaotic_value_eq_of (sin cos : ℚ → ℚ) (L1 L2 m1 m2 tmax dt : ℚ)
    (y0 : PState) (th1 th2 : List ℚ) (v : ℚ)
    (hsim : simulate_double_pendulum sin cos L1 L2 m1 m2 tmax dt y0 = .ok (th1, th2))
    (hv : th2.getLast? = some v) :
    get_chaotic_value_from_pendulum sin cos L1 L2 m1 m2 tmax dt y0 = .ok v := by
  simp [get_chaotic_value_from_pendulum, hsim, hv]

/-- The sample selection loop returns k values, pairwise distinct, all drawn
from the population, for any generator meeting the _randbelow contract. -/
theorem sampleGo_spec {G : Type} (R : BitGen G) :
    ∀ (k : ℕ) (pool : List ℤ) (gst : G), k ≤ pool.length → pool.Nodup →
      (sampleGo R k pool gst).1.length = k ∧ (sampleGo R k pool gst).1.Nodup ∧
      ∀ x ∈ (sampleGo R k pool gst).1, x ∈ pool := by
  intro k
  induction k with
  | zero =>
      intro pool gst _ _
      exact ⟨rfl, List.nodup_nil, fun x hx => absurd hx (List.not_mem_nil x)⟩
  | succ k ih =>
      intro pool gst hk hnd
      have hpos : 0 < pool.length := by omega
      have hj : (R.rb gst pool.length).1 < pool.length := R.rb_lt gst pool.length hpos
      obtain ⟨hlen1, hsub1, hnotmem1, hnd1⟩ :=
        pool_update_spec pool (R.rb gst pool.length).1 hj hnd
      have hk1 : k ≤ ((pool.set (R.rb gst pool.length).1
          (pool.getD (pool.length - 1) 0)).dropLast).length := by
        rw [hlen1]; omega
      obtain ⟨ihlen, ihnd, ihsub⟩ := ih ((pool.set (R.rb gst pool.length).1
          (pool.getD (pool.length - 1) 0)).dropLast) (R.rb gst pool.length).2 hk1 hnd1
      have hfst : (sampleGo R (k + 1) pool gst).1 =
          pool.getD (R.rb gst pool.length).1 0 ::
            (sampleGo R k ((pool.set (R.rb gst pool.length).1
               (pool.getD (pool.length - 1) 0)).dropLast) (R.rb gst pool.length).2).1 :=
        rfl
      refine ⟨?_, ?_, ?_⟩
      · rw [hfst, List.length_cons, ihlen]
      · rw [hfst]
        exact List.nodup_cons.mpr ⟨fun hmem => hnotmem1 (ihsub _ hmem), ihnd⟩
      · intro x hx
        rw [hfst] at hx
        rcases List.mem_cons.mp hx with hx | hx
        · subst hx
          rw [List.getD_eq_getElem pool 0 hj]
          exact List.getElem_mem _
        · exact hsub1 x (ihsub x hx)

/-- randint(a, b) with a ≤ b returns a value in [a, b] for any conforming
generator. -/
theorem randint_mem {G : Type} (R : BitGen G) (a b : ℤ) (gst : G) (hab : a ≤ b) :
    a ≤ (randint R a b gst).1 ∧ (randint R a b gst).1 ≤ b := by
  have h := R.rb_lt gst (b + 1 - a).toNat (by omega)
  simp only [randint]
  omega

/-! The claim theorems. -/

/-- C1: for every time-derived integer t and external token w,
create_combined_seed(t, w) returns exactly hash(w) + t + floor(abs(v) * 1e6),
where v is the chaotic value produced by the chaos extractor with its fixed
default parameters (abs makes the chaotic term non-negative, so Python's int()
truncation coincides with the floor). -/
theorem create_combined_seed_formula {Token : Type} (pyhash : Token → ℤ)
    (sin cos : ℚ → ℚ) (t : ℤ) (w : Token) :
    ∃ v : ℚ, get_chaotic_value_default sin cos = .ok v ∧
      create_combined_seed pyhash sin cos t w =
        .ok (pyhash w + t + ⌊|v| * 1000000⌋) := by
  refine ⟨chaotic_default_val sin cos, get_chaotic_value_default_eq sin cos, ?_⟩
  rw [create_combined_seed_eq, pyInt_eq_floor _ (by positivity)]

/-- C4: the chaos extractor with its default arguments is pure: it returns one
fixed chaotic value (so any two calls within one run agree), namely the last
theta2 sample of the trajectory the integrator produces on those fixed
inputs. -/
theorem get_chaotic_value_default_pure (sin cos : ℚ → ℚ) :
    ∃ v : ℚ, get_chaotic_value_default sin cos = .ok v ∧
      ∃ th1 th2 : List ℚ,
        simulate_double_pendulum sin cos 1 1 1 1 10 (1 / 100) y0_default = .ok (th1, th2) ∧
        th2.getLast? = some v := by
  obtain ⟨th1, th2, hsim, _, h2⟩ :=
    simulate_double_pendulum_ok sin cos 1 1 1 1 10 (1 / 100) y0_default (by norm_num)
  have hlen : 0 < th2.length := by
    rw [h2]; exact arange_length_pos 10 (1 / 100) (by norm_num) (by norm_num)
  obtain ⟨v, hv⟩ := Option.isSome_iff_exists.mp
    (List.getLast?_isSome.mpr (List.ne_nil_of_length_pos hlen))
  exact ⟨v, get_chaotic_value_eq_of sin cos 1 1 1 1 10 (1 / 100) y0_default th1 th2 v hsim hv,
    th1, th2, hsim, hv⟩

/-- C5 counterexample: called with L1 = 0 (all other parameters at their
defaults), simulate_double_pendulum does not fail with any error and produces
a full 1000-sample trajectory, refuting invalid-parameter rejection. -/
theorem simulate_double_pendulum_accepts_zero_length :
    (simulate_double_pendulum zfun zfun 0 1 1 1 10 (1 / 100) y0_default).isOk = true ∧
    (simulate_double_pendulum zfun zfun 0 1 1 1 10 (1 / 100) y0_default).map
        (fun p => p.2.length) = .ok 1000 := by
  obtain ⟨th1, th2, hsim, _, h2⟩ :=
    simulate_double_pendulum_ok zfun zfun 0 1 1 1 10 (1 / 100) y0_default (by norm_num)
  rw [hsim]
  refine ⟨rfl, ?_⟩
  have : (Except.ok (ε := PyErr) (th1, th2)).map (fun p : List ℚ × List ℚ => p.2.length) =
      .ok th2.length := rfl
  rw [this, h2, arange_length]
  norm_num
  rfl

/-- C5 amended: the integrator performs no parameter validation: for every
lengths and masses, zero included, and every nonzero step it succeeds and
produces a trajectory with one sample per time-grid point; no InvalidParameter
failure exists in the code. -/
theorem simulate_double_pendulum_no_validation (sin cos : ℚ → ℚ)
    (L1 L2 m1 m2 tmax dt : ℚ) (y0 : PState) (hdt : dt ≠ 0) :
    ∃ th1 th2 : List ℚ,
      simulate_double_pendulum sin cos L1 L2 m1 m2 tmax dt y0 = .ok (th1, th2) ∧
      th2.length = (arange 0 tmax dt).length := by
  obtain ⟨th1, th2, hsim, _, h2⟩ :=
    simulate_double_pendulum_ok sin cos L1 L2 m1 m2 tmax dt y0 hdt
  exact ⟨th1, th2, hsim, h2⟩

/-- Witness for the amended C5 at L1 = 0 and m1 = 0. -/
theorem simulate_double_pendulum_no_validation_witness :
    ((1 : ℚ) / 100 ≠ 0) ∧
    ∃ th1 th2 : List ℚ,
      simulate_double_pendulum zfun zfun 0 1 0 1 10 (1 / 100) y0_default = .ok (th1, th2) ∧
      th2.length = (arange 0 10 (1 / 100)).length :=
  ⟨by norm_num,
   simulate_double_pendulum_no_validation zfun zfun 0 1 0 1 10 (1 / 100) y0_default
     (by norm_num)⟩

/-- C8: under 0 < dt < tmax the simulation succeeds, the two angle sequences
have equal length, one entry per grid point, the grid holds exactly the
natural multiples of dt strictly below tmax (so tmax itself is excluded), and
the default grid tmax = 10, dt = 0.01 has 1000 samples. -/
theorem simulate_double_pendulum_grid (sin cos : ℚ → ℚ) (L1 L2 m1 m2 tmax dt : ℚ)
    (y0 : PState) (hdt : 0 < dt) (hlt : dt < tmax) :
    ∃ th1 th2 : List ℚ,
      simulate_double_pendulum sin cos L1 L2 m1 m2 tmax dt y0 = .ok (th1, th2) ∧
      th1.length = th2.length ∧
      th1.length = (arange 0 tmax dt).length ∧
      (∀ x : ℚ, x ∈ arange 0 tmax dt ↔ ∃ k : ℕ, x = (k : ℚ) * dt ∧ x < tmax) ∧
      (arange 0 10 (1 / 100)).length = 1000 := by
  obtain ⟨th1, th2, hsim, h1, h2⟩ :=
    simulate_double_pendulum_ok sin cos L1 L2 m1 m2 tmax dt y0 (ne_of_gt hdt)
  refine ⟨th1, th2, hsim, by rw [h1, h2], h1, arange_mem_iff tmax dt hdt, ?_⟩
  rw [arange_length]
  norm_num
  rfl

/-- Witness for C8 at tmax = 1, dt = 1/2. -/
theorem simulate_double_pendulum_grid_witness :
    ((0 : ℚ) < 1 / 2 ∧ (1 : ℚ) / 2 < 1) ∧
    ∃ th1 th2 : List ℚ,
      simulate_double_pendulum zfun zfun 1 1 1 1 1 (1 / 2) y0_default = .ok (th1, th2) ∧
      th1.length = th2.length ∧
      th1.length = (arange 0 1 (1 / 2)).length ∧
      (∀ x : ℚ, x ∈ arange 0 1 (1 / 2) ↔ ∃ k : ℕ, x = (k : ℚ) * (1 / 2) ∧ x < 1) ∧
      (arange 0 10 (1 / 100)).length = 1000 :=
  ⟨⟨by norm_num, by norm_num⟩,
   simulate_double_pendulum_grid zfun zfun 1 1 1 1 1 (1 / 2) y0_default
     (by norm_num) (by norm_num)⟩

/-- C10: for every positive duration and step the time grid is non-empty (it
contains 0), so the chaos extractor's access to the last theta2 sample is
always defined: it returns a value and never an IndexError. -/
theorem get_chaotic_value_never_empty (sin cos : ℚ → ℚ) (L1 L2 m1 m2 tmax dt : ℚ)
    (y0 : PState) (htmax : 0 < tmax) (hdt : 0 < dt) :
    arange 0 tmax dt ≠ [] ∧ (0 : ℚ) ∈ arange 0 tmax dt ∧
      ∃ v : ℚ, get_chaotic_value_from_pendulum sin cos L1 L2 m1 m2 tmax dt y0 = .ok v :=
  ⟨List.ne_nil_of_length_pos (arange_length_pos tmax dt htmax hdt),
   arange_zero_mem tmax dt htmax hdt,
   get_chaotic_value_ok sin cos L1 L2 m1 m2 tmax dt y0 htmax hdt⟩

/-- Witness for C10 at tmax = 1, dt = 1/2. -/
theorem get_chaotic_value_never_empty_witness :
    ((0 : ℚ) < 1 ∧ (0 : ℚ) < 1 / 2) ∧
    arange 0 1 (1 / 2) ≠ [] ∧ (0 : ℚ) ∈ arange 0 1 (1 / 2) ∧
      ∃ v : ℚ, get_chaotic_value_from_pendulum zfun zfun 1 1 1 1 1 (1 / 2) y0_default = .ok v :=
  ⟨⟨by norm_num, by norm_num⟩,
   get_chaotic_value_never_empty zfun zfun 1 1 1 1 1 (1 / 2) y0_default
     (by norm_num) (by norm_num)⟩

/-- C2: for every seed, any conforming generator and any incoming generator
state, generate_eurodreams_numbers returns exactly 6 pairwise distinct main
numbers, each in [1, 40], sorted ascending, together with exactly one bonus
number in [1, 5]. -/
theorem generate_eurodreams_numbers_valid {G : Type} (R : BitGen G) (seedFn : ℤ → G)
    (seed : ℤ) (gIn : G) :
    ((generate_eurodreams_numbers R seedFn seed gIn).1.1).length = 6 ∧
    ((generate_eurodreams_numbers R seedFn seed gIn).1.1).Nodup ∧
    ((generate_eurodreams_numbers R seedFn seed gIn).1.1).Sorted (· ≤ ·) ∧
    (∀ x ∈ (generate_eurodreams_numbers R seedFn seed gIn).1.1, 1 ≤ x ∧ x ≤ 40) ∧
    ∃ b : ℤ, (generate_eurodreams_numbers R seedFn seed gIn).1.2 = [b] ∧ 1 ≤ b ∧ b ≤ 5 := by
  have h40 : (pyRange 1 41).length = 40 := by
    simp [pyRange]
  obtain ⟨hlen, hnd, hsub⟩ := sampleGo_spec R 6 (pyRange 1 41) (seedFn seed)
    (by rw [h40]; norm_num) (pyRange_nodup 1 41)
  have hmain : (generate_eurodreams_numbers R seedFn seed gIn).1.1 =
      (sampleGo R 6 (pyRange 1 41) (seedFn seed)).1.mergeSort := rfl
  have hperm : ((sampleGo R 6 (pyRange 1 41) (seedFn seed)).1.mergeSort).Perm
      (sampleGo R 6 (pyRange 1 41) (seedFn seed)).1 := List.mergeSort_perm _ _
  refine ⟨?_, ?_, ?_, ?_, ?_⟩
  · rw [hmain, hperm.length_eq, hlen]
  · rw [hmain]
    exact hperm.nodup_iff.mpr hnd
  · rw [hmain]
    exact List.sorted_mergeSort' _
  · intro x hx
    rw [hmain] at hx
    have hx2 := hsub x (hperm.mem_iff.mp hx)
    have hx3 := (pyRange_mem 1 41 x).mp hx2
    omega
  · refine ⟨(randint R 1 5 (sample R (pyRange 1 41) 6 (seedFn seed)).2).1, rfl, ?_⟩
    exact randint_mem R 1 5 (sample R (pyRange 1 41) 6 (seedFn seed)).2 (by norm_num)

/-- C3: the number sampler is deterministic: two calls with equal seeds return
identical draw results, whatever generator states the global Random instance
was left in, because random.seed(seed) replaces the whole state. -/
theorem generate_eurodreams_numbers_deterministic {G : Type} (R : BitGen G)
    (seedFn : ℤ → G) (seed : ℤ) (gIn gIn' : G) :
    (generate_eurodreams_numbers R seedFn seed gIn).1 =
      (generate_eurodreams_numbers R seedFn seed gIn').1 := rfl

/-- C6: with the token and the chaotic value held fixed, time seed to combined
seed is injective, and the 48 draws of one run (47 trials at base + i and the
official draw at base + 47) receive pairwise distinct combined seeds. -/
theorem create_combined_seed_time_injective {Token : Type} (pyhash : Token → ℤ)
    (sin cos : ℚ → ℚ) (base : ℤ) (w : Token) (t t' : ℤ)
    (h : create_combined_seed pyhash sin cos t w = create_combined_seed pyhash sin cos t' w) :
    t = t' ∧ (all_draw_seeds pyhash sin cos base w).Nodup := by
  constructor
  · rw [create_combined_seed_eq, create_combined_seed_eq] at h
    have h2 := Except.ok.inj h
    omega
  · have hall : all_draw_seeds pyhash sin cos base w =
        (List.range 48).map (fun i : ℕ =>
          create_combined_seed pyhash sin cos (base + (i : ℤ)) w) := by
      rw [show (48 : ℕ) = 47 + 1 from rfl, List.range_succ, List.map_append,
        List.map_singleton, all_draw_seeds, trial_draw_seeds, official_draw_seed]
      norm_num
    rw [hall]
    refine List.Nodup.map ?_ (List.nodup_range _)
    intro i j hij
    simp only at hij
    rw [create_combined_seed_eq, create_combined_seed_eq] at hij
    have h2 := Except.ok.inj hij
    omega

/-- Witness for C6: equal time seeds trivially satisfy the injectivity
hypothesis, and the 48 draw seeds at base 100 are pairwise distinct. -/
theorem create_combined_seed_time_injective_witness :
    create_combined_seed hash0 zfun zfun 5 () = create_combined_seed hash0 zfun zfun 5 () ∧
    ((5 : ℤ) = 5 ∧ (all_draw_seeds hash0 zfun zfun 100 ()).Nodup) :=
  ⟨rfl, create_combined_seed_time_injective hash0 zfun zfun 100 () 5 5 rfl⟩

/-- C7: after seeding, the 6-without-replacement draw from range(1, 41) is
performed first, and the bonus draw reads exactly the generator state the main
draw left behind; the state the bonus draw leaves becomes the new global
state. -/
theorem generate_eurodreams_numbers_draw_order {G : Type} (R : BitGen G)
    (seedFn : ℤ → G) (seed : ℤ) (gIn : G) :
    (generate_eurodreams_numbers R seedFn seed gIn).1.1 =
        ((sample R (pyRange 1 41) 6 (seedFn seed)).1).mergeSort ∧
    (generate_eurodreams_numbers R seedFn seed gIn).1.2 =
        [(randint R 1 5 (sample R (pyRange 1 41) 6 (seedFn seed)).2).1] ∧
    (generate_eurodreams_numbers R seedFn seed gIn).2 =
        (randint R 1 5 (sample R (pyRange 1 41) 6 (seedFn seed)).2).2 :=
  ⟨rfl, rfl, rfl⟩

/-- C9: the bonus number is returned wrapped in a one-element list, never as a
bare integer: the second component always has length exactly 1. -/
theorem generate_eurodreams_numbers_bonus_singleton {G : Type} (R : BitGen G)
    (seedFn : ℤ → G) (seed : ℤ) (gIn : G) :
    ∃ b : ℤ, (generate_eurodreams_numbers R seedFn seed gIn).1.2 = [b] ∧
      ((generate_eurodreams_numbers R seedFn seed gIn).1.2).length = 1 :=
  ⟨(randint R 1 5 (sample R (pyRange 1 41) 6 (seedFn seed)).2).1, rfl, rfl⟩

end EuroDreams
